import Mathlib

/-!
Verification of the tiered memory pool allocator (memory_pool.h /
memory_pool.cpp) and the auxiliary object pool.

The arena (`MemoryBlock` in the source) is embedded shallowly: the raw
buffer with its intrusive doubly linked chunk list is represented as a
`List MemoryBlockHeader` in address order.  The `next`/`prev` pointers of
the C++ struct are exactly list adjacency; null termination at both ends
is inherent to the list representation.  Machine addresses are byte
offsets from the start of the arena buffer: the header of chunk `i`
lives at offset `sumSize (chunks.take i)` and its payload at that offset
plus `headerSize`.  Pointers handed to callers are `Option Nat` offsets,
with `none` playing the role of the null pointer.  A foreign pointer is
one whose offset minus `headerSize` is not the start of any chunk header
(at such addresses the buffer does not hold the 0xDEADBEEF sentinel).
All sizes are `Nat`; `size_t` wraparound is modelled explicitly (mod
2^64) in `align_up`, the only place the C++ code relies on it.
-/

/-- Model of `sizeof(MemoryBlockHeader)` on an LP64 target: fields
uint32 magic, uint32 block_size, uint8 is_free (+3 padding),
uint32 alignment_padding, two 8-byte pointers, 8-byte aligned. -/
def headerSize : Nat := 32

/-- MemoryBlock::MAGIC_NUMBER, the validity sentinel 0xDEADBEEF. -/
def MAGIC_NUMBER : Nat := 0xDEADBEEF

/-- MemoryBlock::MIN_BLOCK_SIZE, the minimum chunk payload size. -/
def MIN_BLOCK_SIZE : Nat := 64

/-- MemoryBlock::ALIGNMENT, the payload alignment. -/
def ALIGNMENT : Nat := 16

/-- Source: `(size + alignment - 1) & ~(alignment - 1)` over `size_t`.
The complement is taken at 64 bits, and the sum wraps mod 2^64 as in the
C++ code.  Only ever called with `alignment = 16` (a power of two, per
the documented precondition). -/
def align_up (size alignment : Nat) : Nat :=
  ((size + alignment - 1) % 2 ^ 64) &&& ((2 ^ 64 - 1) ^^^ (alignment - 1))

/-- One chunk header (struct MemoryBlockHeader).  `next`/`prev` are
represented by list adjacency and therefore carry no field here. -/
structure MemoryBlockHeader where
  magic : Nat
  block_size : Nat
  is_free : Bool
  alignment_padding : Nat
  deriving Repr, DecidableEq

/-- Sum of `sizeof(header) + block_size` over a chunk list: the number
of buffer bytes the list accounts for. -/
def sumSize : List MemoryBlockHeader → Nat
  | [] => 0
  | c :: rest => headerSize + c.block_size + sumSize rest

/-- Total payload bytes of free chunks; the loop of
`MemoryBlock::get_free_space_unlocked`. -/
def freeSpace : List MemoryBlockHeader → Nat
  | [] => 0
  | c :: rest => (if c.is_free then c.block_size else 0) + freeSpace rest

/-- Largest free chunk payload; the loop shared by
`MemoryBlock::get_max_free_block_size` and
`MemoryBlock::update_cached_max_free_size`. -/
def maxFreeSize : List MemoryBlockHeader → Nat
  | [] => 0
  | c :: rest =>
    if c.is_free then max c.block_size (maxFreeSize rest) else maxFreeSize rest

/-- Byte offset of the header of chunk `i` from the arena base. -/
def chunkOffset (chunks : List MemoryBlockHeader) (i : Nat) : Nat :=
  sumSize (chunks.take i)

/-- Arena state (class MemoryBlock).  `raw_memory_` is implicit: all
offsets are relative to it. -/
structure MemoryBlock where
  total_size : Nat
  used_size : Nat
  cached_max_free_size : Nat
  chunks : List MemoryBlockHeader
  deriving Repr, DecidableEq

/-- MemoryBlock::MemoryBlock(size): one free chunk spanning the whole
buffer minus the header; the cache is primed with its payload size. -/
def MemoryBlock.init (size : Nat) : MemoryBlock :=
  { total_size := size
    used_size := 0
    cached_max_free_size := size - headerSize
    chunks := [⟨MAGIC_NUMBER, size - headerSize, true, 0⟩] }

/-- MemoryBlock::find_free_block: first-fit walk from the list head,
returning the index of the first free chunk of at least `size` bytes. -/
def find_free_block (chunks : List MemoryBlockHeader) (size : Nat) : Option Nat :=
  match chunks with
  | [] => none
  | c :: rest =>
    if c.is_free ∧ size ≤ c.block_size then some 0
    else (find_free_block rest size).map (· + 1)

/-- MemoryBlock::split_block: carve a front chunk of `needed_size`
payload bytes at chunk `i` and a free remainder chunk immediately after
it. -/
def split_block (chunks : List MemoryBlockHeader) (i needed_size : Nat) :
    List MemoryBlockHeader :=
  match chunks[i]? with
  | none => chunks
  | some c =>
    chunks.take i ++
      [{ c with block_size := needed_size },
       ⟨MAGIC_NUMBER, c.block_size - needed_size - headerSize, true, 0⟩] ++
      chunks.drop (i + 1)

/-- First half of MemoryBlock::merge_free_blocks: absorb the next chunk
into chunk `i` when the next chunk is free. -/
def merge_next (chunks : List MemoryBlockHeader) (i : Nat) :
    List MemoryBlockHeader :=
  match chunks[i]?, chunks[i + 1]? with
  | some c, some n =>
    if n.is_free then
      chunks.take i ++
        [{ c with block_size := c.block_size + headerSize + n.block_size }] ++
        chunks.drop (i + 2)
    else chunks
  | _, _ => chunks

/-- Second half of MemoryBlock::merge_free_blocks: absorb chunk `i` into
its predecessor when the predecessor is free. -/
def merge_prev (chunks : List MemoryBlockHeader) (i : Nat) :
    List MemoryBlockHeader :=
  if i = 0 then chunks
  else
    match chunks[i - 1]?, chunks[i]? with
    | some p, some c =>
      if p.is_free then
        chunks.take (i - 1) ++
          [{ p with block_size := p.block_size + headerSize + c.block_size }] ++
          chunks.drop (i + 1)
      else chunks
    | _, _ => chunks

/-- MemoryBlock::merge_free_blocks(header): coalesce with the next
neighbor, then with the previous one. -/
def merge_free_blocks (chunks : List MemoryBlockHeader) (i : Nat) :
    List MemoryBlockHeader :=
  merge_prev (merge_next chunks i) i

/-- The chunk-list effect of the found-a-block path of
MemoryBlock::allocate on the found chunk `c` at index `i`: split when
the chunk strictly exceeds `aligned_size + sizeof(header) +
MIN_BLOCK_SIZE`, then mark the (front) chunk occupied and record its
alignment padding. -/
def alloc_update (chunks : List MemoryBlockHeader) (i : Nat)
    (c : MemoryBlockHeader) (aligned_size size : Nat) :
    List MemoryBlockHeader :=
  let chunks1 :=
    if aligned_size + headerSize + MIN_BLOCK_SIZE < c.block_size
    then split_block chunks i aligned_size else chunks
  chunks1.set i
    { c with
        block_size :=
          if aligned_size + headerSize + MIN_BLOCK_SIZE < c.block_size
          then aligned_size else c.block_size,
        is_free := false,
        alignment_padding := aligned_size - size }

/-- MemoryBlock::allocate.  Returns the payload offset (or `none`) and
the updated arena.  Mirrors the source: zero-size rejection, cache
fast-path rejection, first-fit search, conditional split, marking the
chunk occupied with its alignment padding, and the cache rescan. -/
def MemoryBlock.allocate (mb : MemoryBlock) (size : Nat) :
    Option Nat × MemoryBlock :=
  if size = 0 then (none, mb)
  else
    let aligned_size := align_up size ALIGNMENT
    if mb.cached_max_free_size < aligned_size then (none, mb)
    else
      match find_free_block mb.chunks aligned_size with
      | none => (none, mb)
      | some i =>
        match mb.chunks[i]? with
        | none => (none, mb)
        | some c =>
          let newSize :=
            if aligned_size + headerSize + MIN_BLOCK_SIZE < c.block_size
            then aligned_size else c.block_size
          let chunks2 := alloc_update mb.chunks i c aligned_size size
          (some (chunkOffset mb.chunks i + headerSize),
           { mb with chunks := chunks2,
                     used_size := mb.used_size + newSize,
                     cached_max_free_size := maxFreeSize chunks2 })

/-- Walk the chunk list accumulating header offsets, looking for the
chunk whose payload starts at `p`.  `base` is the offset of the current
chunk's header.  This models the C++ reinterpretation of
`ptr - sizeof(MemoryBlockHeader)` as a header: the sentinel check
succeeds exactly at chunk header addresses. -/
def payloadIndexAux (chunks : List MemoryBlockHeader) (p base : Nat) :
    Option Nat :=
  match chunks with
  | [] => none
  | c :: rest =>
    if base + headerSize = p then some 0
    else (payloadIndexAux rest p (base + headerSize + c.block_size)).map (· + 1)

/-- Index of the chunk whose payload offset is `p`, if any. -/
def payloadIndex (chunks : List MemoryBlockHeader) (p : Nat) : Option Nat :=
  payloadIndexAux chunks p 0

/-- MemoryBlock::deallocate.  Null, foreign (no header / bad sentinel)
and double-free pointers are rejected with `false` and no state change;
otherwise the chunk is freed, coalesced with its neighbors, and the
cache is rescanned. -/
def MemoryBlock.deallocate (mb : MemoryBlock) (ptr : Option Nat) :
    Bool × MemoryBlock :=
  match ptr with
  | none => (false, mb)
  | some p =>
    match payloadIndex mb.chunks p with
    | none => (false, mb)
    | some i =>
      match mb.chunks[i]? with
      | none => (false, mb)
      | some c =>
        if c.magic ≠ MAGIC_NUMBER then (false, mb)
        else if c.is_free then (false, mb)
        else
          let chunks1 := mb.chunks.set i { c with is_free := true }
          let chunks2 := merge_free_blocks chunks1 i
          (true,
           { mb with chunks := chunks2,
                     used_size := mb.used_size - c.block_size,
                     cached_max_free_size := maxFreeSize chunks2 })

/-- The traversal of MemoryBlock::compact: merge adjacent free pairs,
re-examining the merged chunk against its new neighbor before
advancing. -/
def compact_chunks : List MemoryBlockHeader → List MemoryBlockHeader
  | [] => []
  | [c] => [c]
  | c :: n :: rest =>
    if c.is_free ∧ n.is_free then
      compact_chunks
        ({ c with block_size := c.block_size + headerSize + n.block_size } :: rest)
    else c :: compact_chunks (n :: rest)
termination_by l => l.length

/-- MemoryBlock::compact: the merging traversal followed by the cache
rescan. -/
def MemoryBlock.compact (mb : MemoryBlock) : MemoryBlock :=
  let ch := compact_chunks mb.chunks
  { mb with chunks := ch, cached_max_free_size := maxFreeSize ch }

/-- MemoryBlock::get_free_space. -/
def MemoryBlock.get_free_space (mb : MemoryBlock) : Nat :=
  freeSpace mb.chunks

/-- MemoryBlock::get_max_free_block_size. -/
def MemoryBlock.get_max_free_block_size (mb : MemoryBlock) : Nat :=
  maxFreeSize mb.chunks

/-- Adjacency check for the no-two-adjacent-free invariant: at most one
of two neighboring chunks may be free.  `none` stands for a missing
neighbor (list end). -/
def adjOk : Option MemoryBlockHeader → Option MemoryBlockHeader → Bool
  | some a, some b => !(a.is_free && b.is_free)
  | _, _ => true

/-- No two chunks adjacent in the list are both free. -/
def noAdjFree : List MemoryBlockHeader → Bool
  | c1 :: c2 :: rest => (!(c1.is_free && c2.is_free)) && noAdjFree (c2 :: rest)
  | _ => true

/-- The arena invariants of the specification: the chunk list accounts
for the whole buffer, the cached statistic is in sync, no two adjacent
chunks are both free, and every header carries the validity sentinel. -/
def MemoryBlock.wellFormed (mb : MemoryBlock) : Prop :=
  sumSize mb.chunks = mb.total_size ∧
  mb.cached_max_free_size = maxFreeSize mb.chunks ∧
  noAdjFree mb.chunks = true ∧
  (∀ c ∈ mb.chunks, c.magic = MAGIC_NUMBER)

/-! ### List infrastructure lemmas -/

theorem getElem?_append_cons (t : List MemoryBlockHeader) (c : MemoryBlockHeader)
    (d : List MemoryBlockHeader) : (t ++ c :: d)[t.length]? = some c := by
  induction t with
  | nil => simp
  | cons a t ih => simpa using ih

theorem take_append_cons (t : List MemoryBlockHeader) (c : MemoryBlockHeader)
    (d : List MemoryBlockHeader) : (t ++ c :: d).take t.length = t := by
  induction t with
  | nil => rfl
  | cons a t ih => simpa using ih

theorem drop_append_cons (t : List MemoryBlockHeader) (c : MemoryBlockHeader)
    (d : List MemoryBlockHeader) : (t ++ c :: d).drop (t.length + 1) = d := by
  induction t with
  | nil => rfl
  | cons a t ih => simpa using ih

theorem set_append_cons (t : List MemoryBlockHeader) (c x : MemoryBlockHeader)
    (d : List MemoryBlockHeader) : (t ++ c :: d).set t.length x = t ++ x :: d := by
  induction t with
  | nil => rfl
  | cons a t ih => simpa using ih

theorem decomp_of_getElem? (l : List MemoryBlockHeader) (i : Nat)
    (c : MemoryBlockHeader) (h : l[i]? = some c) :
    ∃ t d, l = t ++ c :: d ∧ t.length = i := by
  induction l generalizing i with
  | nil => simp at h
  | cons a l ih =>
    cases i with
    | zero =>
      simp at h
      exact ⟨[], l, by simp [h], rfl⟩
    | succ j =>
      simp at h
      obtain ⟨t, d, rfl, rfl⟩ := ih j h
      exact ⟨a :: t, d, rfl, rfl⟩

theorem sumSize_append (l1 l2 : List MemoryBlockHeader) :
    sumSize (l1 ++ l2) = sumSize l1 + sumSize l2 := by
  induction l1 with
  | nil => simp [sumSize]
  | cons a l ih => simp [sumSize, ih]; omega

theorem freeSpace_append (l1 l2 : List MemoryBlockHeader) :
    freeSpace (l1 ++ l2) = freeSpace l1 + freeSpace l2 := by
  induction l1 with
  | nil => simp [freeSpace]
  | cons a l ih => simp [freeSpace, ih]; omega

theorem maxFreeSize_ge_of_mem (l : List MemoryBlockHeader)
    (c : MemoryBlockHeader) (hm : c ∈ l) (hf : c.is_free = true) :
    c.block_size ≤ maxFreeSize l := by
  induction l with
  | nil => simp at hm
  | cons a l ih =>
    rcases List.mem_cons.mp hm with h | h
    · subst h
      simp [maxFreeSize, hf]
    · by_cases ha : a.is_free = true <;> simp [maxFreeSize, ha]
      · exact Or.inr (ih h)
      · exact ih h

theorem find_free_block_none_iff (l : List MemoryBlockHeader) (a : Nat) :
    find_free_block l a = none ↔
      ∀ c ∈ l, ¬(c.is_free = true ∧ a ≤ c.block_size) := by
  induction l with
  | nil => simp [find_free_block]
  | cons x l ih =>
    by_cases hx : x.is_free = true ∧ a ≤ x.block_size
    · simp [find_free_block, hx]
    · simp only [find_free_block, if_neg hx]
      cases hfl : find_free_block l a with
      | none =>
        simp only [Option.map_none', true_iff]
        intro c hc
        rcases List.mem_cons.mp hc with rfl | hc
        · exact hx
        · exact (ih.mp hfl) c hc
      | some j =>
        simp only [Option.map_some']
        constructor
        · intro h
          cases h
        · intro h
          exfalso
          have := ih.mpr fun c hc => h c (List.mem_cons_of_mem _ hc)
          rw [hfl] at this
          cases this

theorem find_free_block_none_of_max_lt (l : List MemoryBlockHeader) (a : Nat)
    (h : maxFreeSize l < a) : find_free_block l a = none := by
  refine (find_free_block_none_iff l a).mpr ?_
  intro c hc hcontra
  have := maxFreeSize_ge_of_mem l c hc hcontra.1
  omega

theorem find_free_block_some_iff (l : List MemoryBlockHeader) (a i : Nat) :
    find_free_block l a = some i ↔
      ∃ t c d, l = t ++ c :: d ∧ t.length = i ∧
        (∀ c' ∈ t, ¬(c'.is_free = true ∧ a ≤ c'.block_size)) ∧
        c.is_free = true ∧ a ≤ c.block_size := by
  induction l generalizing i with
  | nil =>
    constructor
    · intro h
      simp [find_free_block] at h
    · rintro ⟨t, c, d, h, -⟩
      exact absurd h (by simp)
  | cons x l ih =>
    by_cases hx : x.is_free = true ∧ a ≤ x.block_size
    · constructor
      · intro h
        simp only [find_free_block, if_pos hx, Option.some.injEq] at h
        exact ⟨[], x, l, rfl, h, by simp, hx.1, hx.2⟩
      · rintro ⟨t, c, d, hl, hlen, hall, hcf, hcs⟩
        cases t with
        | nil =>
          simp only [List.nil_append] at hl
          injection hl with h1 h2
          subst h1
          subst h2
          simp only [find_free_block, if_pos hx]
          simp at hlen
          simp [← hlen]
        | cons y t =>
          exfalso
          injection hl with h1 h2
          subst h1
          exact hall x (List.mem_cons_self x t) hx
    · constructor
      · intro h
        simp only [find_free_block, if_neg hx] at h
        rcases Option.map_eq_some'.mp h with ⟨j, hj, hji⟩
        obtain ⟨t, c, d, hl, hlen, hall, hcf, hcs⟩ := (ih j).mp hj
        subst hl
        refine ⟨x :: t, c, d, rfl, ?_, ?_, hcf, hcs⟩
        · simp [hlen, ← hji]
        · intro c' hc'
          rcases List.mem_cons.mp hc' with rfl | hc'
          · exact hx
          · exact hall c' hc'
      · rintro ⟨t, c, d, hl, hlen, hall, hcf, hcs⟩
        cases t with
        | nil =>
          simp only [List.nil_append] at hl
          injection hl with h1 h2
          subst h1
          exact absurd ⟨hcf, hcs⟩ hx
        | cons y t =>
          injection hl with h1 h2
          subst h1
          subst h2
          have hrec : find_free_block (t ++ c :: d) a = some t.length :=
            (ih t.length).mpr ⟨t, c, d, rfl, rfl,
              fun c' hc' => hall c' (List.mem_cons_of_mem _ hc'), hcf, hcs⟩
          simp only [← hlen]
          simp [find_free_block, if_neg hx, hrec]

theorem adjOk_none_left (o : Option MemoryBlockHeader) : adjOk none o = true := by
  cases o <;> rfl

theorem adjOk_none_right (o : Option MemoryBlockHeader) : adjOk o none = true := by
  cases o <;> rfl

theorem adjOk_some_some (a b : MemoryBlockHeader) :
    adjOk (some a) (some b) = !(a.is_free && b.is_free) := rfl

theorem noAdjFree_cons (x : MemoryBlockHeader) (l : List MemoryBlockHeader) :
    noAdjFree (x :: l) = (adjOk (some x) l.head? && noAdjFree l) := by
  cases l with
  | nil => rfl
  | cons y l => rfl

theorem noAdjFree_append (l1 l2 : List MemoryBlockHeader) :
    noAdjFree (l1 ++ l2) =
      (noAdjFree l1 && adjOk l1.getLast? l2.head? && noAdjFree l2) := by
  induction l1 with
  | nil =>
    simp [noAdjFree, adjOk_none_left]
  | cons a t ih =>
    cases t with
    | nil =>
      simp only [List.singleton_append, noAdjFree_cons a l2]
      have h1 : noAdjFree [a] = true := rfl
      have h2 : List.getLast? [a] = some a := rfl
      rw [h1, h2]
      simp
    | cons b t =>
      have hcons : (a :: b :: t) ++ l2 = a :: ((b :: t) ++ l2) := rfl
      rw [hcons, noAdjFree_cons a ((b :: t) ++ l2), ih,
        noAdjFree_cons a (b :: t)]
      have hh : ((b :: t) ++ l2).head? = some b := rfl
      have hh2 : (b :: t).head? = some b := rfl
      have hl : (a :: b :: t).getLast? = (b :: t).getLast? := by
        simp [List.getLast?]
      rw [hh, hh2, hl]
      cases hab : adjOk (some a) (some b) <;> simp [Bool.and_assoc]

theorem noAdjFree_tail (x : MemoryBlockHeader) (l : List MemoryBlockHeader)
    (h : noAdjFree (x :: l) = true) : noAdjFree l = true := by
  rw [noAdjFree_cons] at h
  exact (Bool.and_eq_true_iff.mp h).2

theorem getLast?_concat_mbh (t : List MemoryBlockHeader) (q : MemoryBlockHeader) :
    (t ++ [q]).getLast? = some q := by
  simp

/-! ### payloadIndex lemmas -/

theorem payloadIndexAux_none_of_lt (t : List MemoryBlockHeader) (p base : Nat)
    (h : base + sumSize t < p) : payloadIndexAux t p base = none := by
  induction t generalizing base with
  | nil => rfl
  | cons c rest ih =>
    have hs : sumSize (c :: rest) = headerSize + c.block_size + sumSize rest := rfl
    have hne : ¬(base + headerSize = p) := by
      rw [hs] at h
      have hpos : headerSize = 32 := rfl
      omega
    rw [payloadIndexAux, if_neg hne, ih (base + headerSize + c.block_size) (by rw [hs] at h; omega)]
    rfl

theorem payloadIndexAux_append (t l2 : List MemoryBlockHeader) (p base : Nat) :
    payloadIndexAux (t ++ l2) p base =
      match payloadIndexAux t p base with
      | some j => some j
      | none => (payloadIndexAux l2 p (base + sumSize t)).map (· + t.length) := by
  induction t generalizing base with
  | nil =>
    rw [List.nil_append]
    show payloadIndexAux l2 p base =
      (payloadIndexAux l2 p (base + sumSize [])).map (· + List.length [])
    rw [show sumSize ([] : List MemoryBlockHeader) = 0 from rfl, Nat.add_zero]
    cases payloadIndexAux l2 p base <;> simp
  | cons c rest ih =>
    by_cases hc : base + headerSize = p
    · simp [payloadIndexAux, hc]
    · have hL : payloadIndexAux ((c :: rest) ++ l2) p base =
          (payloadIndexAux (rest ++ l2) p (base + headerSize + c.block_size)).map
            (· + 1) := by
        rw [List.cons_append, payloadIndexAux, if_neg hc]
      have hT : payloadIndexAux (c :: rest) p base =
          (payloadIndexAux rest p (base + headerSize + c.block_size)).map (· + 1) := by
        rw [payloadIndexAux, if_neg hc]
      rw [hL, hT, ih]
      cases hv : payloadIndexAux rest p (base + headerSize + c.block_size) with
      | some j => simp
      | none =>
        simp only [Option.map_none']
        have hs : base + headerSize + c.block_size + sumSize rest =
            base + sumSize (c :: rest) := by
          rw [show sumSize (c :: rest) = headerSize + c.block_size + sumSize rest
            from rfl]
          omega
        rw [hs]
        cases payloadIndexAux l2 p (base + sumSize (c :: rest)) with
        | some j =>
          simp only [Option.map_some', Option.some.injEq, List.length_cons]
          omega
        | none => simp

theorem payloadIndex_append_cons (t : List MemoryBlockHeader)
    (c : MemoryBlockHeader) (d : List MemoryBlockHeader) :
    payloadIndex (t ++ c :: d) (sumSize t + headerSize) = some t.length := by
  rw [payloadIndex, payloadIndexAux_append]
  have h1 : payloadIndexAux t (sumSize t + headerSize) 0 = none := by
    apply payloadIndexAux_none_of_lt
    have : headerSize = 32 := rfl
    omega
  rw [h1]
  have h2 : payloadIndexAux (c :: d) (sumSize t + headerSize) (0 + sumSize t) = some 0 := by
    rw [payloadIndexAux, if_pos (by omega)]
  rw [h2]
  simp

/-! ### Structural equations for split and merge at a decomposed index -/

theorem split_block_eq (t : List MemoryBlockHeader) (c : MemoryBlockHeader)
    (d : List MemoryBlockHeader) (a : Nat) :
    split_block (t ++ c :: d) t.length a =
      t ++ { c with block_size := a } ::
        (⟨MAGIC_NUMBER, c.block_size - a - headerSize, true, 0⟩ :
          MemoryBlockHeader) :: d := by
  rw [split_block, getElem?_append_cons, take_append_cons, drop_append_cons]
  simp

theorem merge_next_last (t : List MemoryBlockHeader) (c : MemoryBlockHeader) :
    merge_next (t ++ [c]) t.length = t ++ [c] := by
  rw [merge_next]
  have h1 : (t ++ [c])[t.length]? = some c := getElem?_append_cons t c []
  have h2 : (t ++ [c])[t.length + 1]? = none := by
    apply List.getElem?_eq_none
    simp
  rw [h1, h2]

theorem merge_next_free (t : List MemoryBlockHeader) (c n : MemoryBlockHeader)
    (d : List MemoryBlockHeader) (hn : n.is_free = true) :
    merge_next (t ++ c :: n :: d) t.length =
      t ++ [{ c with block_size := c.block_size + headerSize + n.block_size }] ++ d := by
  rw [merge_next]
  have h1 : (t ++ c :: n :: d)[t.length]? = some c := getElem?_append_cons t c (n :: d)
  have h2 : (t ++ c :: n :: d)[t.length + 1]? = some n := by
    have := getElem?_append_cons (t ++ [c]) n d
    simpa using this
  have h3 : (t ++ c :: n :: d).take t.length = t := take_append_cons t c (n :: d)
  have h4 : (t ++ c :: n :: d).drop (t.length + 2) = d := by
    have := drop_append_cons (t ++ [c]) n d
    simpa [Nat.add_assoc] using this
  rw [h1, h2]
  simp [hn, h3, h4]

theorem merge_next_occupied (t : List MemoryBlockHeader) (c n : MemoryBlockHeader)
    (d : List MemoryBlockHeader) (hn : n.is_free = false) :
    merge_next (t ++ c :: n :: d) t.length = t ++ c :: n :: d := by
  rw [merge_next]
  have h1 : (t ++ c :: n :: d)[t.length]? = some c := getElem?_append_cons t c (n :: d)
  have h2 : (t ++ c :: n :: d)[t.length + 1]? = some n := by
    have := getElem?_append_cons (t ++ [c]) n d
    simpa using this
  rw [h1, h2]
  simp [hn]

theorem merge_prev_zero (l : List MemoryBlockHeader) : merge_prev l 0 = l := by
  rw [merge_prev]
  simp

theorem merge_prev_free (t : List MemoryBlockHeader) (q x : MemoryBlockHeader)
    (d : List MemoryBlockHeader) (hq : q.is_free = true) :
    merge_prev (t ++ q :: x :: d) (t.length + 1) =
      t ++ [{ q with block_size := q.block_size + headerSize + x.block_size }] ++ d := by
  rw [merge_prev, if_neg (Nat.succ_ne_zero t.length)]
  have h1 : (t ++ q :: x :: d)[t.length + 1 - 1]? = some q := by
    simpa using getElem?_append_cons t q (x :: d)
  have h2 : (t ++ q :: x :: d)[t.length + 1]? = some x := by
    have := getElem?_append_cons (t ++ [q]) x d
    simpa using this
  have h3 : (t ++ q :: x :: d).take (t.length + 1 - 1) = t := by
    simpa using take_append_cons t q (x :: d)
  have h4 : (t ++ q :: x :: d).drop (t.length + 1 + 1) = d := by
    have := drop_append_cons (t ++ [q]) x d
    simpa [Nat.add_assoc] using this
  rw [h1, h2]
  simp [hq, h3, h4]

theorem merge_prev_occupied (t : List MemoryBlockHeader) (q x : MemoryBlockHeader)
    (d : List MemoryBlockHeader) (hq : q.is_free = false) :
    merge_prev (t ++ q :: x :: d) (t.length + 1) = t ++ q :: x :: d := by
  rw [merge_prev, if_neg (Nat.succ_ne_zero t.length)]
  have h1 : (t ++ q :: x :: d)[t.length + 1 - 1]? = some q := by
    simpa using getElem?_append_cons t q (x :: d)
  have h2 : (t ++ q :: x :: d)[t.length + 1]? = some x := by
    have := getElem?_append_cons (t ++ [q]) x d
    simpa using this
  rw [h1, h2]
  simp [hq]

/-! ### Characterization of allocate -/

theorem allocate_eq_of_found (mb : MemoryBlock) (s i : Nat)
    (c : MemoryBlockHeader)
    (h0 : ¬ s = 0)
    (hc : ¬ mb.cached_max_free_size < align_up s ALIGNMENT)
    (hf : find_free_block mb.chunks (align_up s ALIGNMENT) = some i)
    (hi : mb.chunks[i]? = some c) :
    mb.allocate s =
      (some (chunkOffset mb.chunks i + headerSize),
       { mb with
           chunks := alloc_update mb.chunks i c (align_up s ALIGNMENT) s,
           used_size := mb.used_size +
             (if align_up s ALIGNMENT + headerSize + MIN_BLOCK_SIZE < c.block_size
              then align_up s ALIGNMENT else c.block_size),
           cached_max_free_size :=
             maxFreeSize (alloc_update mb.chunks i c (align_up s ALIGNMENT) s) }) := by
  simp only [MemoryBlock.allocate, if_neg h0, if_neg hc, hf, hi]

theorem alloc_update_split (t : List MemoryBlockHeader) (c : MemoryBlockHeader)
    (d : List MemoryBlockHeader) (a s : Nat)
    (h : a + headerSize + MIN_BLOCK_SIZE < c.block_size) :
    alloc_update (t ++ c :: d) t.length c a s =
      t ++ { c with block_size := a, is_free := false,
                    alignment_padding := a - s } ::
        (⟨MAGIC_NUMBER, c.block_size - a - headerSize, true, 0⟩ :
          MemoryBlockHeader) :: d := by
  rw [alloc_update]
  simp only [if_pos h]
  rw [split_block_eq]
  exact set_append_cons t _ _ _

theorem alloc_update_no_split (t : List MemoryBlockHeader)
    (c : MemoryBlockHeader) (d : List MemoryBlockHeader) (a s : Nat)
    (h : ¬ (a + headerSize + MIN_BLOCK_SIZE < c.block_size)) :
    alloc_update (t ++ c :: d) t.length c a s =
      t ++ { c with is_free := false, alignment_padding := a - s } :: d := by
  rw [alloc_update]
  simp only [if_neg h]
  exact set_append_cons t _ _ _

theorem allocate_none_cases (mb : MemoryBlock) (s : Nat)
    (h : (mb.allocate s).1 = none) : (mb.allocate s).2 = mb := by
  rw [MemoryBlock.allocate] at h ⊢
  by_cases h0 : s = 0
  · simp [h0]
  · simp only [if_neg h0] at h ⊢
    by_cases hc : mb.cached_max_free_size < align_up s ALIGNMENT
    · simp [if_pos hc]
    · simp only [if_neg hc] at h ⊢
      cases hf : find_free_block mb.chunks (align_up s ALIGNMENT) with
      | none => simp
      | some i =>
        simp only [hf] at h
        cases hi : mb.chunks[i]? with
        | none => simp [hi]
        | some c =>
          simp only [hi] at h
          simp at h

/-- Claim C1: for every arena state satisfying the chunk-list
invariants, `MemoryBlock::allocate(s)` with `s > 0` computes
`alignedSize = alignUp(s, 16)` and returns the payload offset (chunk
header offset plus `sizeof(MemoryBlockHeader)`) of the first chunk in
address order from the list head whose `isFree` flag is set and whose
`chunkSize >= alignedSize`; if no such chunk exists, or `s = 0`, it
returns null. -/
theorem allocate_first_fit (mb : MemoryBlock) (s p : Nat)
    (hw : mb.wellFormed) :
    (mb.allocate s).1 = some p ↔
      0 < s ∧ ∃ t c d, mb.chunks = t ++ c :: d ∧
        (∀ c' ∈ t, ¬(c'.is_free = true ∧ align_up s ALIGNMENT ≤ c'.block_size)) ∧
        c.is_free = true ∧ align_up s ALIGNMENT ≤ c.block_size ∧
        p = sumSize t + headerSize := by
  obtain ⟨-, hcache, -, -⟩ := hw
  constructor
  · intro h
    by_cases h0 : s = 0
    · rw [MemoryBlock.allocate, if_pos h0] at h
      cases h
    by_cases hc : mb.cached_max_free_size < align_up s ALIGNMENT
    · rw [MemoryBlock.allocate, if_neg h0] at h
      simp only [if_pos hc] at h
      cases h
    cases hf : find_free_block mb.chunks (align_up s ALIGNMENT) with
    | none =>
      rw [MemoryBlock.allocate, if_neg h0] at h
      simp only [if_neg hc, hf] at h
      cases h
    | some i =>
      obtain ⟨t, c, d, hl, hlen, hall, hcf, hcs⟩ :=
        (find_free_block_some_iff mb.chunks (align_up s ALIGNMENT) i).mp hf
      have hi : mb.chunks[i]? = some c := by
        rw [hl, ← hlen]
        exact getElem?_append_cons t c d
      rw [allocate_eq_of_found mb s i c h0 hc hf hi] at h
      simp only [Option.some.injEq] at h
      refine ⟨Nat.pos_of_ne_zero h0, t, c, d, hl, hall, hcf, hcs, ?_⟩
      rw [← h, chunkOffset, hl, ← hlen, take_append_cons]
  · rintro ⟨hs, t, c, d, hl, hall, hcf, hcs, rfl⟩
    have h0 : ¬ s = 0 := by omega
    have hf : find_free_block mb.chunks (align_up s ALIGNMENT) = some t.length :=
      (find_free_block_some_iff mb.chunks (align_up s ALIGNMENT) t.length).mpr
        ⟨t, c, d, hl, rfl, hall, hcf, hcs⟩
    have hmem : c ∈ mb.chunks := by
      rw [hl]
      exact List.mem_append_right t (List.mem_cons_self c d)
    have hmax : align_up s ALIGNMENT ≤ maxFreeSize mb.chunks :=
      le_trans hcs (maxFreeSize_ge_of_mem mb.chunks c hmem hcf)
    have hc : ¬ mb.cached_max_free_size < align_up s ALIGNMENT := by
      rw [hcache]
      omega
    have hi : mb.chunks[t.length]? = some c := by
      rw [hl]
      exact getElem?_append_cons t c d
    rw [allocate_eq_of_found mb s t.length c h0 hc hf hi]
    simp only [Option.some.injEq]
    rw [chunkOffset, hl, take_append_cons]

/-- Witness for C1 on a concrete arena: a fresh 256-byte arena serves a
16-byte request from its single free chunk at payload offset 32. -/
theorem allocate_first_fit_witness :
    ((MemoryBlock.init 256).allocate 16).1 = some 32 :=
  (allocate_first_fit (MemoryBlock.init 256) 16 32
      ⟨by decide, by decide, by decide, by decide⟩).mpr
    ⟨by decide, [], ⟨MAGIC_NUMBER, 224, true, 0⟩, [], by decide, by decide,
      by decide, by decide, by decide⟩

/-- Claim C4: `MemoryBlock::deallocate(p)` returns false and leaves the
arena state completely unchanged when `p` is null, when the header at
`p - sizeof(MemoryBlockHeader)` does not carry the 0xDEADBEEF sentinel
(foreign pointer, modelled as: `p` is not the payload offset of any
chunk, or the chunk header's magic field differs), or when the chunk is
already free (double free); it returns true exactly when `p` is the
payload offset of a valid occupied chunk. -/
theorem deallocate_error_paths (mb : MemoryBlock) :
    mb.deallocate none = (false, mb) ∧
    (∀ p, payloadIndex mb.chunks p = none →
      mb.deallocate (some p) = (false, mb)) ∧
    (∀ p i c, payloadIndex mb.chunks p = some i → mb.chunks[i]? = some c →
      c.magic ≠ MAGIC_NUMBER → mb.deallocate (some p) = (false, mb)) ∧
    (∀ p i c, payloadIndex mb.chunks p = some i → mb.chunks[i]? = some c →
      c.is_free = true → mb.deallocate (some p) = (false, mb)) ∧
    (∀ p, (mb.deallocate (some p)).1 = true ↔
      ∃ i c, payloadIndex mb.chunks p = some i ∧ mb.chunks[i]? = some c ∧
        c.magic = MAGIC_NUMBER ∧ c.is_free = false) := by
  refine ⟨rfl, ?_, ?_, ?_, ?_⟩
  · intro p h
    simp [MemoryBlock.deallocate, h]
  · intro p i c h1 h2 h3
    simp [MemoryBlock.deallocate, h1, h2, h3]
  · intro p i c h1 h2 h3
    by_cases hm : c.magic = MAGIC_NUMBER
    · simp [MemoryBlock.deallocate, h1, h2, hm, h3]
    · simp [MemoryBlock.deallocate, h1, h2, hm]
  · intro p
    constructor
    · intro h
      cases hpi : payloadIndex mb.chunks p with
      | none => simp [MemoryBlock.deallocate, hpi] at h
      | some i =>
        cases hic : mb.chunks[i]? with
        | none => simp [MemoryBlock.deallocate, hpi, hic] at h
        | some c =>
          by_cases hm : c.magic = MAGIC_NUMBER
          · by_cases hfree : c.is_free = true
            · simp [MemoryBlock.deallocate, hpi, hic, hm, hfree] at h
            · exact ⟨i, c, rfl, hic, hm, by simpa using hfree⟩
          · simp [MemoryBlock.deallocate, hpi, hic, hm] at h
    · rintro ⟨i, c, hpi, hic, hm, hfree⟩
      simp [MemoryBlock.deallocate, hpi, hic, hm, hfree]

/-- Witness for C4: on a fresh 256-byte arena, freeing null, freeing an
offset that is no chunk payload (5), and double-freeing the payload of
the still-free initial chunk (offset 32) all fail and leave the arena
unchanged. -/
theorem deallocate_error_paths_witness :
    (MemoryBlock.init 256).deallocate none = (false, MemoryBlock.init 256) ∧
    (MemoryBlock.init 256).deallocate (some 5) = (false, MemoryBlock.init 256) ∧
    (MemoryBlock.init 256).deallocate (some 32) = (false, MemoryBlock.init 256) :=
  ⟨(deallocate_error_paths (MemoryBlock.init 256)).1,
   (deallocate_error_paths (MemoryBlock.init 256)).2.1 5 (by decide),
   (deallocate_error_paths (MemoryBlock.init 256)).2.2.2.1 32 0
     ⟨MAGIC_NUMBER, 224, true, 0⟩ (by decide) (by decide) (by decide)⟩

/-! ### State-shape case lemmas for allocate and deallocate -/

theorem allocate_state_cases (mb : MemoryBlock) (s : Nat) :
    (mb.allocate s).2 = mb ∨
    ∃ i c, find_free_block mb.chunks (align_up s ALIGNMENT) = some i ∧
      mb.chunks[i]? = some c ∧ ¬ s = 0 ∧
      ¬ mb.cached_max_free_size < align_up s ALIGNMENT ∧
      (mb.allocate s).2 =
        { mb with
            chunks := alloc_update mb.chunks i c (align_up s ALIGNMENT) s,
            used_size := mb.used_size +
              (if align_up s ALIGNMENT + headerSize + MIN_BLOCK_SIZE < c.block_size
               then align_up s ALIGNMENT else c.block_size),
            cached_max_free_size :=
              maxFreeSize (alloc_update mb.chunks i c (align_up s ALIGNMENT) s) } := by
  by_cases h0 : s = 0
  · left
    simp [MemoryBlock.allocate, h0]
  by_cases hc : mb.cached_max_free_size < align_up s ALIGNMENT
  · left
    rw [MemoryBlock.allocate, if_neg h0]
    simp [if_pos hc]
  cases hf : find_free_block mb.chunks (align_up s ALIGNMENT) with
  | none =>
    left
    rw [MemoryBlock.allocate, if_neg h0]
    simp [if_neg hc, hf]
  | some i =>
    cases hic : mb.chunks[i]? with
    | none =>
      left
      rw [MemoryBlock.allocate, if_neg h0]
      simp [if_neg hc, hf, hic]
    | some c =>
      right
      exact ⟨i, c, rfl, hic, h0, hc,
        by rw [allocate_eq_of_found mb s i c h0 hc hf hic]⟩

theorem deallocate_state_cases (mb : MemoryBlock) (ptr : Option Nat) :
    (mb.deallocate ptr).2 = mb ∨
    ∃ p i c, ptr = some p ∧ payloadIndex mb.chunks p = some i ∧
      mb.chunks[i]? = some c ∧ c.magic = MAGIC_NUMBER ∧ c.is_free = false ∧
      (mb.deallocate ptr).2 =
        { mb with
            chunks := merge_free_blocks
              (mb.chunks.set i { c with is_free := true }) i,
            used_size := mb.used_size - c.block_size,
            cached_max_free_size := maxFreeSize (merge_free_blocks
              (mb.chunks.set i { c with is_free := true }) i) } := by
  cases ptr with
  | none => left; rfl
  | some p =>
    cases hpi : payloadIndex mb.chunks p with
    | none =>
      left
      simp [MemoryBlock.deallocate, hpi]
    | some i =>
      cases hic : mb.chunks[i]? with
      | none =>
        left
        simp [MemoryBlock.deallocate, hpi, hic]
      | some c =>
        by_cases hm : c.magic = MAGIC_NUMBER
        · by_cases hfree : c.is_free = true
          · left
            simp [MemoryBlock.deallocate, hpi, hic, hm, hfree]
          · right
            refine ⟨p, i, c, rfl, hpi, hic, hm, by simpa using hfree, ?_⟩
            simp [MemoryBlock.deallocate, hpi, hic, hm, hfree]
        · left
          simp [MemoryBlock.deallocate, hpi, hic, hm]

/-- Claim C6: after construction, after every completed allocate,
deallocate and compact (mutating or not, including the early-return
error paths which leave the state untouched), the cached
`cached_max_free_size_` equals the actual maximum free chunk payload as
computed by `get_max_free_block_size`. -/
theorem cache_sync_preserved :
    (∀ n, (MemoryBlock.init n).cached_max_free_size =
      maxFreeSize (MemoryBlock.init n).chunks) ∧
    (∀ (mb : MemoryBlock) (s : Nat),
      mb.cached_max_free_size = maxFreeSize mb.chunks →
      ((mb.allocate s).2).cached_max_free_size =
        maxFreeSize ((mb.allocate s).2).chunks) ∧
    (∀ (mb : MemoryBlock) (ptr : Option Nat),
      mb.cached_max_free_size = maxFreeSize mb.chunks →
      ((mb.deallocate ptr).2).cached_max_free_size =
        maxFreeSize ((mb.deallocate ptr).2).chunks) ∧
    (∀ mb : MemoryBlock, (mb.compact).cached_max_free_size =
      maxFreeSize (mb.compact).chunks) := by
  refine ⟨?_, ?_, ?_, ?_⟩
  · intro n
    simp [MemoryBlock.init, maxFreeSize]
  · intro mb s h
    rcases allocate_state_cases mb s with heq | ⟨i, c, -, -, -, -, heq⟩ <;>
      rw [heq] <;> simpa using h
  · intro mb ptr h
    rcases deallocate_state_cases mb ptr with heq | ⟨p, i, c, -, -, -, -, -, heq⟩ <;>
      rw [heq] <;> simpa using h
  · intro mb
    simp [MemoryBlock.compact]

/-- Witness for C6: the cache equals the true maximum after a concrete
allocation on a fresh arena. -/
theorem cache_sync_preserved_witness :
    ((MemoryBlock.init 256).allocate 16).2.cached_max_free_size =
      maxFreeSize ((MemoryBlock.init 256).allocate 16).2.chunks :=
  cache_sync_preserved.2.1 (MemoryBlock.init 256) 16 (by decide)

/-! ### More adjacency and decomposition helpers -/

theorem adjOk_right_occ (o : Option MemoryBlockHeader) (b : MemoryBlockHeader)
    (hb : b.is_free = false) : adjOk o (some b) = true := by
  cases o with
  | none => rfl
  | some a => simp [adjOk, hb]

theorem adjOk_left_occ (a : MemoryBlockHeader) (o : Option MemoryBlockHeader)
    (ha : a.is_free = false) : adjOk (some a) o = true := by
  cases o with
  | none => rfl
  | some b => simp [adjOk, ha]

theorem adjOk_transfer_left (o : Option MemoryBlockHeader)
    (q x : MemoryBlockHeader) (h : adjOk o (some q) = true)
    (hq : q.is_free = true) : adjOk o (some x) = true := by
  cases o with
  | none => rfl
  | some z =>
    simp [adjOk, hq] at h
    simp [adjOk, h]

theorem adjOk_transfer_right (q x : MemoryBlockHeader)
    (o : Option MemoryBlockHeader) (h : adjOk (some q) o = true)
    (hq : q.is_free = true) : adjOk (some x) o = true := by
  cases o with
  | none => rfl
  | some z =>
    simp [adjOk, hq] at h
    simp [adjOk, h]

theorem getElem?_append_cons_succ (t : List MemoryBlockHeader)
    (c : MemoryBlockHeader) (d : List MemoryBlockHeader) :
    (t ++ c :: d)[t.length + 1]? = d[0]? := by
  induction t with
  | nil => simp
  | cons a t ih => simpa using ih

theorem decomp2_of_getElem? (l : List MemoryBlockHeader) (i : Nat)
    (c n : MemoryBlockHeader) (h1 : l[i]? = some c) (h2 : l[i + 1]? = some n) :
    ∃ t d, l = t ++ c :: n :: d ∧ t.length = i := by
  obtain ⟨t, d', rfl, rfl⟩ := decomp_of_getElem? l i c h1
  rw [getElem?_append_cons_succ] at h2
  cases d' with
  | nil => simp at h2
  | cons n' d =>
    simp at h2
    subst h2
    exact ⟨t, d, rfl, rfl⟩

theorem sumSize_middle (t : List MemoryBlockHeader) (x : MemoryBlockHeader)
    (d : List MemoryBlockHeader) :
    sumSize (t ++ x :: d) = sumSize t + headerSize + x.block_size + sumSize d := by
  rw [sumSize_append, show sumSize (x :: d) = headerSize + x.block_size + sumSize d
    from rfl]
  omega

theorem freeSpace_middle (t : List MemoryBlockHeader) (x : MemoryBlockHeader)
    (d : List MemoryBlockHeader) :
    freeSpace (t ++ x :: d) =
      freeSpace t + (if x.is_free then x.block_size else 0) + freeSpace d := by
  rw [freeSpace_append, show freeSpace (x :: d) =
    (if x.is_free then x.block_size else 0) + freeSpace d from rfl]
  omega

/-! ### Merge operations preserve the buffer-span sum -/

theorem sumSize_merge_next (l : List MemoryBlockHeader) (i : Nat) :
    sumSize (merge_next l i) = sumSize l := by
  cases h1 : l[i]? with
  | none =>
    rw [merge_next, h1]
  | some c =>
    cases h2 : l[i + 1]? with
    | none =>
      rw [merge_next, h1, h2]
    | some n =>
      obtain ⟨t, d, rfl, rfl⟩ := decomp2_of_getElem? l i c n h1 h2
      by_cases hn : n.is_free = true
      · rw [merge_next_free t c n d hn]
        rw [List.append_assoc, List.singleton_append, sumSize_middle,
          sumSize_middle t c (n :: d),
          show sumSize (n :: d) = headerSize + n.block_size + sumSize d from rfl]
        simp only []
        omega
      · have hn' : n.is_free = false := by simpa using hn
        rw [merge_next_occupied t c n d hn']

theorem sumSize_merge_prev (l : List MemoryBlockHeader) (i : Nat) :
    sumSize (merge_prev l i) = sumSize l := by
  cases i with
  | zero => rw [merge_prev_zero]
  | succ j =>
    cases h1 : l[j]? with
    | none =>
      rw [merge_prev, if_neg (Nat.succ_ne_zero j)]
      simp only [Nat.add_sub_cancel]
      rw [h1]
    | some q =>
      cases h2 : l[j + 1]? with
      | none =>
        rw [merge_prev, if_neg (Nat.succ_ne_zero j)]
        simp only [Nat.add_sub_cancel]
        rw [h1, h2]
      | some x =>
        obtain ⟨t, d, rfl, rfl⟩ := decomp2_of_getElem? l j q x h1 h2
        by_cases hq : q.is_free = true
        · rw [merge_prev_free t q x d hq]
          rw [List.append_assoc, List.singleton_append, sumSize_middle,
            sumSize_middle t q (x :: d),
            show sumSize (x :: d) = headerSize + x.block_size + sumSize d from rfl]
          simp only []
          omega
        · have hq' : q.is_free = false := by simpa using hq
          rw [merge_prev_occupied t q x d hq']

theorem sumSize_compact_aux :
    ∀ (n : Nat) (l : List MemoryBlockHeader), l.length ≤ n →
      sumSize (compact_chunks l) = sumSize l := by
  intro n
  induction n with
  | zero =>
    intro l hl
    have hnil : l = [] := List.eq_nil_of_length_eq_zero (Nat.le_zero.mp hl)
    subst hnil
    simp [compact_chunks]
  | succ n ih =>
    intro l hl
    match l with
    | [] => simp [compact_chunks]
    | [c] => simp [compact_chunks]
    | c :: x :: rest =>
      by_cases h : c.is_free = true ∧ x.is_free = true
      · have hstep : compact_chunks (c :: x :: rest) =
            compact_chunks
              ({ c with block_size := c.block_size + headerSize + x.block_size }
                :: rest) := by
          rw [compact_chunks]
          simp [h]
        rw [hstep, ih _ (by simp at hl ⊢; omega)]
        rw [show sumSize ({ c with
            block_size := c.block_size + headerSize + x.block_size } :: rest) =
          headerSize + (c.block_size + headerSize + x.block_size) + sumSize rest
          from rfl]
        rw [show sumSize (c :: x :: rest) =
          headerSize + c.block_size + (headerSize + x.block_size + sumSize rest)
          from rfl]
        omega
      · have hstep : compact_chunks (c :: x :: rest) =
            c :: compact_chunks (x :: rest) := by
          rw [compact_chunks]
          simp [h]
        rw [hstep]
        rw [show sumSize (c :: compact_chunks (x :: rest)) =
          headerSize + c.block_size + sumSize (compact_chunks (x :: rest)) from rfl]
        rw [ih (x :: rest) (by simp at hl ⊢; omega)]
        rfl

theorem sumSize_compact (l : List MemoryBlockHeader) :
    sumSize (compact_chunks l) = sumSize l :=
  sumSize_compact_aux l.length l (Nat.le_refl _)

/-- Claim C5: the chunk list always accounts for the whole reserved
buffer: summing `sizeof(header) + chunkSize` over all chunks equals the
arena's `totalSize` (next/prev consistency and null termination are
inherent to the list embedding of the intrusive chain).  This holds
after construction and is preserved by allocate (including split),
deallocate (including merge), and compact. -/
theorem conservation_preserved :
    (∀ n : Nat, headerSize ≤ n →
      sumSize (MemoryBlock.init n).chunks = (MemoryBlock.init n).total_size) ∧
    (∀ (mb : MemoryBlock) (s : Nat), sumSize mb.chunks = mb.total_size →
      sumSize ((mb.allocate s).2).chunks = ((mb.allocate s).2).total_size) ∧
    (∀ (mb : MemoryBlock) (ptr : Option Nat),
      sumSize mb.chunks = mb.total_size →
      sumSize ((mb.deallocate ptr).2).chunks =
        ((mb.deallocate ptr).2).total_size) ∧
    (∀ mb : MemoryBlock, sumSize mb.chunks = mb.total_size →
      sumSize (mb.compact).chunks = (mb.compact).total_size) := by
  have h32 : headerSize = 32 := rfl
  refine ⟨?_, ?_, ?_, ?_⟩
  · intro n hn
    show headerSize + (n - headerSize) + sumSize [] = n
    rw [show sumSize [] = 0 from rfl]
    omega
  · intro mb s h
    rcases allocate_state_cases mb s with heq | ⟨i, c, hf, hic, -, -, heq⟩
    · rw [heq]
      exact h
    · rw [heq]
      obtain ⟨t, d, hdec, rfl⟩ := decomp_of_getElem? mb.chunks i c hic
      rw [hdec] at h ⊢
      rw [sumSize_middle] at h
      show sumSize (alloc_update (t ++ c :: d) t.length c
        (align_up s ALIGNMENT) s) = mb.total_size
      by_cases hsplit : align_up s ALIGNMENT + headerSize + MIN_BLOCK_SIZE <
          c.block_size
      · rw [alloc_update_split t c d _ s hsplit]
        rw [sumSize_middle t _ _,
          show ∀ y : MemoryBlockHeader, ∀ dd, sumSize (y :: dd) =
            headerSize + y.block_size + sumSize dd from fun y dd => rfl]
        simp only []
        omega
      · rw [alloc_update_no_split t c d _ s hsplit]
        rw [sumSize_middle t _ d]
        simp only []
        omega
  · intro mb ptr h
    rcases deallocate_state_cases mb ptr with heq | ⟨p, i, c, -, hpi, hic, -, -, heq⟩
    · rw [heq]
      exact h
    · rw [heq]
      show sumSize (merge_free_blocks
        (mb.chunks.set i { c with is_free := true }) i) = mb.total_size
      rw [merge_free_blocks, sumSize_merge_prev, sumSize_merge_next]
      obtain ⟨t, d, hdec, rfl⟩ := decomp_of_getElem? mb.chunks i c hic
      rw [hdec] at h ⊢
      rw [set_append_cons, sumSize_middle] at *
      simp only []
      omega
  · intro mb h
    show sumSize (compact_chunks mb.chunks) = mb.total_size
    rw [sumSize_compact]
    exact h

/-- Witness for C5: conservation holds concretely after an allocation
splits the fresh arena's single chunk. -/
theorem conservation_preserved_witness :
    sumSize ((MemoryBlock.init 256).allocate 16).2.chunks =
      ((MemoryBlock.init 256).allocate 16).2.total_size :=
  conservation_preserved.2.1 (MemoryBlock.init 256) 16 (by decide)

/-! ### Assembling and destructing the no-adjacent-free invariant -/

theorem noAdjFree_build (t l2 : List MemoryBlockHeader)
    (h1 : noAdjFree t = true) (h2 : noAdjFree l2 = true)
    (h3 : adjOk t.getLast? l2.head? = true) : noAdjFree (t ++ l2) = true := by
  rw [noAdjFree_append]
  simp [h1, h2, h3]

theorem noAdjFree_cons_build (x : MemoryBlockHeader)
    (l : List MemoryBlockHeader) (h1 : adjOk (some x) l.head? = true)
    (h2 : noAdjFree l = true) : noAdjFree (x :: l) = true := by
  rw [noAdjFree_cons]
  simp [h1, h2]

theorem noAdjFree_append_parts (l1 l2 : List MemoryBlockHeader)
    (h : noAdjFree (l1 ++ l2) = true) :
    noAdjFree l1 = true ∧ noAdjFree l2 = true ∧
      adjOk l1.getLast? l2.head? = true := by
  rw [noAdjFree_append] at h
  simp only [Bool.and_eq_true] at h
  exact ⟨h.1.1, h.2, h.1.2⟩

theorem noAdjFree_cons_parts (x : MemoryBlockHeader)
    (l : List MemoryBlockHeader) (h : noAdjFree (x :: l) = true) :
    adjOk (some x) l.head? = true ∧ noAdjFree l = true := by
  rw [noAdjFree_cons] at h
  simp only [Bool.and_eq_true] at h
  exact h

theorem noAdjFree_singleton (x : MemoryBlockHeader) :
    noAdjFree [x] = true := rfl

theorem noAdjFree_allocate_aux (mb : MemoryBlock) (s : Nat)
    (h : noAdjFree mb.chunks = true) :
    noAdjFree ((mb.allocate s).2).chunks = true := by
  rcases allocate_state_cases mb s with heq | ⟨i, c, hf, hic, -, -, heq⟩
  · rw [heq]
    exact h
  · rw [heq]
    show noAdjFree (alloc_update mb.chunks i c (align_up s ALIGNMENT) s) = true
    obtain ⟨t, c2, d, hdec, hlen, -, hcf, -⟩ :=
      (find_free_block_some_iff mb.chunks (align_up s ALIGNMENT) i).mp hf
    have hic2 : mb.chunks[i]? = some c2 := by
      rw [hdec, ← hlen]
      exact getElem?_append_cons t c2 d
    rw [hic] at hic2
    injection hic2 with hc2
    subst hc2
    subst hlen
    rw [hdec] at h ⊢
    obtain ⟨hT, hCD, hB⟩ := noAdjFree_append_parts t (c :: d) h
    obtain ⟨hAdjC, hD⟩ := noAdjFree_cons_parts c d hCD
    by_cases hsplit : align_up s ALIGNMENT + headerSize + MIN_BLOCK_SIZE <
        c.block_size
    · rw [alloc_update_split t c d _ s hsplit]
      refine noAdjFree_build t _ hT ?_ ?_
      · refine noAdjFree_cons_build _ _ (adjOk_left_occ _ _ rfl) ?_
        refine noAdjFree_cons_build _ _ ?_ hD
        exact adjOk_transfer_right c _ _ hAdjC hcf
      · exact adjOk_right_occ _ _ rfl
    · rw [alloc_update_no_split t c d _ s hsplit]
      refine noAdjFree_build t _ hT ?_ ?_
      · refine noAdjFree_cons_build _ _ ?_ hD
        exact adjOk_transfer_right c _ _ hAdjC hcf
      · exact adjOk_right_occ _ _ rfl

theorem noAdjFree_deallocate_aux (mb : MemoryBlock) (ptr : Option Nat)
    (h : noAdjFree mb.chunks = true) :
    noAdjFree ((mb.deallocate ptr).2).chunks = true := by
  rcases deallocate_state_cases mb ptr with heq | ⟨p, i, c, -, hpi, hic, -, -, heq⟩
  · rw [heq]
    exact h
  · rw [heq]
    show noAdjFree (merge_free_blocks
      (mb.chunks.set i { c with is_free := true }) i) = true
    obtain ⟨t, d, hdec, rfl⟩ := decomp_of_getElem? mb.chunks i c hic
    rw [hdec] at h
    rw [hdec, set_append_cons, merge_free_blocks]
    obtain ⟨hT, hCD, hB⟩ := noAdjFree_append_parts t (c :: d) h
    obtain ⟨-, hD⟩ := noAdjFree_cons_parts c d hCD
    cases d with
    | nil =>
      rw [merge_next_last t { c with is_free := true }]
      rcases List.eq_nil_or_concat t with rfl | ⟨t', q, ht⟩
      · simp only [List.length_nil, List.nil_append]
        rw [merge_prev_zero]
        exact noAdjFree_singleton _
      · rw [List.concat_eq_append] at ht
        subst ht
        obtain ⟨hT', hQ, hBq⟩ := noAdjFree_append_parts t' [q] hT
        have hshape : (t' ++ [q]) ++ [{ c with is_free := true }] =
            t' ++ q :: { c with is_free := true } :: [] := by simp
        have hlen2 : (t' ++ [q]).length = t'.length + 1 := by simp
        rw [hshape, hlen2]
        by_cases hq : q.is_free = true
        · rw [merge_prev_free t' q _ [] hq]
          simp only [List.append_nil]
          refine noAdjFree_build t' _ hT' (noAdjFree_singleton _) ?_
          exact adjOk_transfer_left _ q _ hBq hq
        · have hq' : q.is_free = false := by simpa using hq
          rw [merge_prev_occupied t' q _ [] hq']
          refine noAdjFree_build t' _ hT' ?_ hBq
          exact noAdjFree_cons_build q _ (adjOk_left_occ q _ hq')
            (noAdjFree_singleton _)
    | cons nh d' =>
      obtain ⟨hAdjN, hD'⟩ := noAdjFree_cons_parts nh d' hD
      by_cases hn : nh.is_free = true
      · rw [merge_next_free t _ nh d' hn, List.append_assoc, List.singleton_append]
        rcases List.eq_nil_or_concat t with rfl | ⟨t', q, ht⟩
        · simp only [List.length_nil, List.nil_append]
          rw [merge_prev_zero]
          refine noAdjFree_cons_build _ d' ?_ hD'
          exact adjOk_transfer_right nh _ _ hAdjN hn
        · rw [List.concat_eq_append] at ht
          subst ht
          obtain ⟨hT', hQ, hBq⟩ := noAdjFree_append_parts t' [q] hT
          have hshape : (t' ++ [q]) ++
              ({ c with is_free := true, block_size := { c with is_free := true }.block_size + headerSize + nh.block_size } :: d') =
              t' ++ q :: { c with is_free := true, block_size := { c with is_free := true }.block_size + headerSize + nh.block_size } :: d' := by
            simp
          have hlen2 : (t' ++ [q]).length = t'.length + 1 := by simp
          rw [List.append_assoc] at hshape
          rw [hlen2]
          by_cases hq : q.is_free = true
          · rw [show ((t' ++ [q]) ++
                ({ c with is_free := true, block_size := ({ c with is_free := true } : MemoryBlockHeader).block_size + headerSize + nh.block_size } :: d')) =
                t' ++ q :: { c with is_free := true, block_size := ({ c with is_free := true } : MemoryBlockHeader).block_size + headerSize + nh.block_size } :: d'
              from by simp]
            rw [merge_prev_free t' q _ d' hq]
            rw [List.append_assoc, List.singleton_append]
            refine noAdjFree_build t' _ hT' ?_ ?_
            · refine noAdjFree_cons_build _ d' ?_ hD'
              exact adjOk_transfer_right nh _ _ hAdjN hn
            · exact adjOk_transfer_left _ q _ hBq hq
          · have hq' : q.is_free = false := by simpa using hq
            rw [show ((t' ++ [q]) ++
                ({ c with is_free := true, block_size := ({ c with is_free := true } : MemoryBlockHeader).block_size + headerSize + nh.block_size } :: d')) =
                t' ++ q :: { c with is_free := true, block_size := ({ c with is_free := true } : MemoryBlockHeader).block_size + headerSize + nh.block_size } :: d'
              from by simp]
            rw [merge_prev_occupied t' q _ d' hq']
            refine noAdjFree_build t' _ hT' ?_ hBq
            refine noAdjFree_cons_build q _ (adjOk_left_occ q _ hq') ?_
            refine noAdjFree_cons_build _ d' ?_ hD'
            exact adjOk_transfer_right nh _ _ hAdjN hn
      · have hn' : nh.is_free = false := by simpa using hn
        rw [merge_next_occupied t _ nh d' hn']
        rcases List.eq_nil_or_concat t with rfl | ⟨t', q, ht⟩
        · simp only [List.length_nil, List.nil_append]
          rw [merge_prev_zero]
          exact noAdjFree_cons_build _ _ (adjOk_right_occ _ _ hn') hD
        · rw [List.concat_eq_append] at ht
          subst ht
          obtain ⟨hT', hQ, hBq⟩ := noAdjFree_append_parts t' [q] hT
          have hshape : (t' ++ [q]) ++
              ({ c with is_free := true } :: nh :: d') =
              t' ++ q :: { c with is_free := true } :: nh :: d' := by simp
          have hlen2 : (t' ++ [q]).length = t'.length + 1 := by simp
          rw [hshape, hlen2]
          by_cases hq : q.is_free = true
          · rw [merge_prev_free t' q _ (nh :: d') hq]
            rw [List.append_assoc, List.singleton_append]
            refine noAdjFree_build t' _ hT' ?_ ?_
            · exact noAdjFree_cons_build _ _ (adjOk_right_occ _ _ hn') hD
            · exact adjOk_transfer_left _ q _ hBq hq
          · have hq' : q.is_free = false := by simpa using hq
            rw [merge_prev_occupied t' q _ (nh :: d') hq']
            refine noAdjFree_build t' _ hT' ?_ hBq
            refine noAdjFree_cons_build q _ (adjOk_left_occ q _ hq') ?_
            exact noAdjFree_cons_build _ _ (adjOk_right_occ _ _ hn') hD

/-- Claim C2: no two chunks adjacent in the list are ever both free
after a completed deallocation: the freed chunk is coalesced with its
next and previous neighbors before deallocate returns.  The property is
an inductive invariant: construction, allocate (including split) and
deallocate all preserve it from any state satisfying it. -/
theorem no_adjacent_free_preserved :
    (∀ n : Nat, noAdjFree (MemoryBlock.init n).chunks = true) ∧
    (∀ (mb : MemoryBlock) (s : Nat), noAdjFree mb.chunks = true →
      noAdjFree ((mb.allocate s).2).chunks = true) ∧
    (∀ (mb : MemoryBlock) (ptr : Option Nat), noAdjFree mb.chunks = true →
      noAdjFree ((mb.deallocate ptr).2).chunks = true) :=
  ⟨fun _ => rfl, noAdjFree_allocate_aux, noAdjFree_deallocate_aux⟩

/-- Witness for C2: a concrete allocate-then-deallocate sequence on a
fresh arena (which splits and then re-merges the chunk) keeps the
invariant. -/
theorem no_adjacent_free_preserved_witness :
    noAdjFree ((((MemoryBlock.init 256).allocate 16).2.deallocate
      (some 32)).2).chunks = true :=
  no_adjacent_free_preserved.2.2 ((MemoryBlock.init 256).allocate 16).2
    (some 32) (by decide)

/-- Claim C3: in `MemoryBlock::allocate`, the found free chunk is split
if and only if its size strictly exceeds
`alignedSize + sizeof(MemoryBlockHeader) + MIN_BLOCK_SIZE`; when split,
the handed-out front chunk has payload size exactly `alignedSize` and a
free remainder chunk of size
`oldChunkSize - alignedSize - sizeof(MemoryBlockHeader)` is linked
immediately after it; whenever the remainder would be smaller than
`MIN_BLOCK_SIZE`, splitting is skipped and the whole oversized chunk is
handed out unsplit. -/
theorem split_policy (mb : MemoryBlock) (s i : Nat) (c : MemoryBlockHeader)
    (h0 : ¬ s = 0)
    (hc : ¬ mb.cached_max_free_size < align_up s ALIGNMENT)
    (hf : find_free_block mb.chunks (align_up s ALIGNMENT) = some i)
    (hi : mb.chunks[i]? = some c) :
    (((mb.allocate s).2).chunks.length = mb.chunks.length + 1 ↔
      align_up s ALIGNMENT + headerSize + MIN_BLOCK_SIZE < c.block_size) ∧
    (align_up s ALIGNMENT + headerSize + MIN_BLOCK_SIZE < c.block_size →
      ((mb.allocate s).2).chunks =
        mb.chunks.take i ++
          [⟨c.magic, align_up s ALIGNMENT, false, align_up s ALIGNMENT - s⟩,
           ⟨MAGIC_NUMBER, c.block_size - align_up s ALIGNMENT - headerSize,
             true, 0⟩] ++
          mb.chunks.drop (i + 1)) ∧
    (c.block_size - align_up s ALIGNMENT - headerSize < MIN_BLOCK_SIZE →
      ((mb.allocate s).2).chunks =
        mb.chunks.set i
          ⟨c.magic, c.block_size, false, align_up s ALIGNMENT - s⟩) := by
  have hch : ((mb.allocate s).2).chunks =
      alloc_update mb.chunks i c (align_up s ALIGNMENT) s := by
    rw [allocate_eq_of_found mb s i c h0 hc hf hi]
  obtain ⟨t, d, hdec, rfl⟩ := decomp_of_getElem? mb.chunks i c hi
  refine ⟨?_, ?_, ?_⟩
  · constructor
    · intro hlen
      by_contra hns
      rw [hch, hdec, alloc_update_no_split t c d _ s hns] at hlen
      simp [List.length_append] at hlen
    · intro hs
      rw [hch, hdec, alloc_update_split t c d _ s hs]
      simp only [List.length_append, List.length_cons]
      omega
  · intro hs
    rw [hch, hdec, alloc_update_split t c d _ s hs,
      take_append_cons, drop_append_cons]
    simp
  · intro hrem
    have hns : ¬ (align_up s ALIGNMENT + headerSize + MIN_BLOCK_SIZE <
        c.block_size) := by
      have h32 : headerSize = 32 := rfl
      have h64 : MIN_BLOCK_SIZE = 64 := rfl
      omega
    rw [hch, hdec, alloc_update_no_split t c d _ s hns, set_append_cons]

/-- Witness for C3: allocating 16 bytes from a fresh 256-byte arena
splits its 224-byte chunk into an occupied 16-byte front chunk and a
176-byte free remainder. -/
theorem split_policy_witness :
    ((MemoryBlock.init 256).allocate 16).2.chunks =
      (MemoryBlock.init 256).chunks.take 0 ++
        [⟨MAGIC_NUMBER, align_up 16 ALIGNMENT, false, align_up 16 ALIGNMENT - 16⟩,
         ⟨MAGIC_NUMBER, 224 - align_up 16 ALIGNMENT - headerSize, true, 0⟩] ++
      (MemoryBlock.init 256).chunks.drop 1 :=
  (split_policy (MemoryBlock.init 256) 16 0 ⟨MAGIC_NUMBER, 224, true, 0⟩
    (by decide) (by decide) (by decide) (by decide)).2.1 (by decide)

theorem occ_of_adjOk_left (q c : MemoryBlockHeader)
    (h : adjOk (some q) (some c) = true) (hcf : c.is_free = true) :
    q.is_free = false := by
  simp [adjOk, hcf] at h
  exact h

theorem occ_of_adjOk_right (c n : MemoryBlockHeader)
    (h : adjOk (some c) (some n) = true) (hcf : c.is_free = true) :
    n.is_free = false := by
  simp [adjOk, hcf] at h
  exact h

/-- Claim C8: for every arena state satisfying the chunk-list
invariants and every `s > 0` for which `MemoryBlock::allocate(s)`
returns a non-null pointer `p`, an immediate `MemoryBlock::deallocate(p)`
returns true and restores `getFreeSpace()` exactly to its value before
the allocation (exact restoration is within the claimed header/padding
overhead bound). -/
theorem allocate_deallocate_roundtrip (mb : MemoryBlock) (s p : Nat)
    (hw : mb.wellFormed) (hs : 0 < s)
    (halloc : (mb.allocate s).1 = some p) :
    (((mb.allocate s).2).deallocate (some p)).1 = true ∧
    ((((mb.allocate s).2).deallocate (some p)).2).get_free_space =
      mb.get_free_space := by
  obtain ⟨-, -, hadj, hmagic⟩ := hw
  have h0 : ¬ s = 0 := by omega
  by_cases hc : mb.cached_max_free_size < align_up s ALIGNMENT
  · rw [MemoryBlock.allocate, if_neg h0] at halloc
    simp only [if_pos hc] at halloc
    cases halloc
  cases hf : find_free_block mb.chunks (align_up s ALIGNMENT) with
  | none =>
    rw [MemoryBlock.allocate, if_neg h0] at halloc
    simp only [if_neg hc, hf] at halloc
    cases halloc
  | some i =>
    obtain ⟨t, c, d, hdec, hlen, hall, hcf, hcs⟩ :=
      (find_free_block_some_iff mb.chunks (align_up s ALIGNMENT) i).mp hf
    subst hlen
    have hi : mb.chunks[t.length]? = some c := by
      rw [hdec]
      exact getElem?_append_cons t c d
    have hstate := allocate_eq_of_found mb s t.length c h0 hc hf hi
    rw [hstate] at halloc
    simp only [Option.some.injEq] at halloc
    have hoff : chunkOffset mb.chunks t.length + headerSize =
        sumSize t + headerSize := by
      rw [chunkOffset, hdec, take_append_cons]
    rw [hoff] at halloc
    subst halloc
    have hmag : c.magic = MAGIC_NUMBER := by
      refine hmagic c ?_
      rw [hdec]
      exact List.mem_append_right t (List.mem_cons_self c d)
    rw [hdec] at hadj
    obtain ⟨hT, hCD, hB⟩ := noAdjFree_append_parts t (c :: d) hadj
    obtain ⟨hAdjC, hD⟩ := noAdjFree_cons_parts c d hCD
    have hch : (mb.allocate s).2.chunks =
        alloc_update mb.chunks t.length c (align_up s ALIGNMENT) s := by
      rw [hstate]
    by_cases hsp : align_up s ALIGNMENT + headerSize + MIN_BLOCK_SIZE <
        c.block_size
    · -- split case: the freed front chunk re-coalesces with the remainder
      have hch2 : (mb.allocate s).2.chunks =
          t ++ (⟨c.magic, align_up s ALIGNMENT, false,
              align_up s ALIGNMENT - s⟩ : MemoryBlockHeader) ::
            (⟨MAGIC_NUMBER, c.block_size - align_up s ALIGNMENT - headerSize,
              true, 0⟩ : MemoryBlockHeader) :: d := by
        rw [hch, hdec, alloc_update_split t c d _ s hsp]
      have hpi1 : payloadIndex (mb.allocate s).2.chunks
          (sumSize t + headerSize) = some t.length := by
        rw [hch2]
        exact payloadIndex_append_cons t _ _
      have hic1 : (mb.allocate s).2.chunks[t.length]? =
          some ⟨c.magic, align_up s ALIGNMENT, false,
            align_up s ALIGNMENT - s⟩ := by
        rw [hch2]
        exact getElem?_append_cons t _ _
      have hdeq : (mb.allocate s).2.deallocate (some (sumSize t + headerSize)) =
          (true,
           { (mb.allocate s).2 with
               chunks := merge_free_blocks
                 ((mb.allocate s).2.chunks.set t.length
                   ⟨c.magic, align_up s ALIGNMENT, true,
                     align_up s ALIGNMENT - s⟩) t.length,
               used_size := (mb.allocate s).2.used_size - align_up s ALIGNMENT,
               cached_max_free_size := maxFreeSize (merge_free_blocks
                 ((mb.allocate s).2.chunks.set t.length
                   ⟨c.magic, align_up s ALIGNMENT, true,
                     align_up s ALIGNMENT - s⟩) t.length) }) := by
        rw [MemoryBlock.deallocate]
        simp only [hpi1, hic1, hmag]
        simp
      rw [hdeq]
      refine ⟨rfl, ?_⟩
      show freeSpace (merge_free_blocks
        ((mb.allocate s).2.chunks.set t.length
          ⟨c.magic, align_up s ALIGNMENT, true,
            align_up s ALIGNMENT - s⟩) t.length) = freeSpace mb.chunks
      rw [hch2, set_append_cons, merge_free_blocks,
        merge_next_free t _ _ d rfl, List.append_assoc, List.singleton_append]
      have hfinal : merge_prev (t ++
          (⟨c.magic, align_up s ALIGNMENT +
              headerSize + (c.block_size - align_up s ALIGNMENT - headerSize),
            true, align_up s ALIGNMENT - s⟩ : MemoryBlockHeader) :: d)
          t.length = t ++
          (⟨c.magic, align_up s ALIGNMENT +
              headerSize + (c.block_size - align_up s ALIGNMENT - headerSize),
            true, align_up s ALIGNMENT - s⟩ : MemoryBlockHeader) :: d := by
        rcases List.eq_nil_or_concat t with rfl | ⟨t', q, ht⟩
        · simp only [List.length_nil]
          exact merge_prev_zero _
        · rw [List.concat_eq_append] at ht
          subst ht
          have hqocc : q.is_free = false := by
            refine occ_of_adjOk_left q c ?_ hcf
            have hlast : (t' ++ [q]).getLast? = some q := getLast?_concat_mbh t' q
            rw [hlast] at hB
            exact hB
          have hshape : (t' ++ [q]) ++
              (⟨c.magic, align_up s ALIGNMENT +
                  headerSize + (c.block_size - align_up s ALIGNMENT - headerSize),
                true, align_up s ALIGNMENT - s⟩ : MemoryBlockHeader) :: d =
              t' ++ q ::
                (⟨c.magic, align_up s ALIGNMENT +
                    headerSize + (c.block_size - align_up s ALIGNMENT - headerSize),
                  true, align_up s ALIGNMENT - s⟩ : MemoryBlockHeader) :: d := by
            simp
          have hlen2 : (t' ++ [q]).length = t'.length + 1 := by simp
          rw [hshape, hlen2, merge_prev_occupied t' q _ d hqocc]
      rw [hfinal, hdec, freeSpace_middle, freeSpace_middle]
      simp only [hcf, if_pos]
      have h32 : headerSize = 32 := rfl
      omega
    · -- no-split case: the whole chunk is freed back unchanged in size
      have hch2 : (mb.allocate s).2.chunks =
          t ++ (⟨c.magic, c.block_size, false,
              align_up s ALIGNMENT - s⟩ : MemoryBlockHeader) :: d := by
        rw [hch, hdec, alloc_update_no_split t c d _ s hsp]
      have hpi1 : payloadIndex (mb.allocate s).2.chunks
          (sumSize t + headerSize) = some t.length := by
        rw [hch2]
        exact payloadIndex_append_cons t _ _
      have hic1 : (mb.allocate s).2.chunks[t.length]? =
          some ⟨c.magic, c.block_size, false, align_up s ALIGNMENT - s⟩ := by
        rw [hch2]
        exact getElem?_append_cons t _ _
      have hdeq : (mb.allocate s).2.deallocate (some (sumSize t + headerSize)) =
          (true,
           { (mb.allocate s).2 with
               chunks := merge_free_blocks
                 ((mb.allocate s).2.chunks.set t.length
                   ⟨c.magic, c.block_size, true,
                     align_up s ALIGNMENT - s⟩) t.length,
               used_size := (mb.allocate s).2.used_size - c.block_size,
               cached_max_free_size := maxFreeSize (merge_free_blocks
                 ((mb.allocate s).2.chunks.set t.length
                   ⟨c.magic, c.block_size, true,
                     align_up s ALIGNMENT - s⟩) t.length) }) := by
        rw [MemoryBlock.deallocate]
        simp only [hpi1, hic1, hmag]
        simp
      rw [hdeq]
      refine ⟨rfl, ?_⟩
      show freeSpace (merge_free_blocks
        ((mb.allocate s).2.chunks.set t.length
          ⟨c.magic, c.block_size, true,
            align_up s ALIGNMENT - s⟩) t.length) = freeSpace mb.chunks
      rw [hch2, set_append_cons, merge_free_blocks]
      have hnext : merge_next (t ++
          (⟨c.magic, c.block_size, true,
            align_up s ALIGNMENT - s⟩ : MemoryBlockHeader) :: d) t.length =
          t ++ (⟨c.magic, c.block_size, true,
            align_up s ALIGNMENT - s⟩ : MemoryBlockHeader) :: d := by
        cases d with
        | nil => exact merge_next_last t _
        | cons nh d' =>
          have hnocc : nh.is_free = false :=
            occ_of_adjOk_right c nh (by simpa using hAdjC) hcf
          exact merge_next_occupied t _ nh d' hnocc
      rw [hnext]
      have hfinal : merge_prev (t ++
          (⟨c.magic, c.block_size, true,
            align_up s ALIGNMENT - s⟩ : MemoryBlockHeader) :: d) t.length =
          t ++ (⟨c.magic, c.block_size, true,
            align_up s ALIGNMENT - s⟩ : MemoryBlockHeader) :: d := by
        rcases List.eq_nil_or_concat t with rfl | ⟨t', q, ht⟩
        · simp only [List.length_nil]
          exact merge_prev_zero _
        · rw [List.concat_eq_append] at ht
          subst ht
          have hqocc : q.is_free = false := by
            refine occ_of_adjOk_left q c ?_ hcf
            have hlast : (t' ++ [q]).getLast? = some q := getLast?_concat_mbh t' q
            rw [hlast] at hB
            exact hB
          have hshape : (t' ++ [q]) ++
              (⟨c.magic, c.block_size, true,
                align_up s ALIGNMENT - s⟩ : MemoryBlockHeader) :: d =
              t' ++ q :: (⟨c.magic, c.block_size, true,
                align_up s ALIGNMENT - s⟩ : MemoryBlockHeader) :: d := by
            simp
          have hlen2 : (t' ++ [q]).length = t'.length + 1 := by simp
          rw [hshape, hlen2, merge_prev_occupied t' q _ d hqocc]
      rw [hfinal, hdec, freeSpace_middle, freeSpace_middle]
      simp only [hcf, if_pos]

/-- Witness for C8: allocating 16 bytes from a fresh 256-byte arena and
immediately freeing the returned pointer succeeds and restores the free
space exactly. -/
theorem allocate_deallocate_roundtrip_witness :
    (((MemoryBlock.init 256).allocate 16).2.deallocate (some 32)).1 = true ∧
    ((((MemoryBlock.init 256).allocate 16).2.deallocate
      (some 32)).2).get_free_space = (MemoryBlock.init 256).get_free_space :=
  allocate_deallocate_roundtrip (MemoryBlock.init 256) 16 32
    ⟨by decide, by decide, by decide, by decide⟩ (by decide) (by decide)

/-! ### Tiered pool manager (class MemoryPoolManager) -/

/-- The three size tiers of the manager. -/
inductive Tier where
  | small
  | medium
  | large
  deriving Repr, DecidableEq

/-- struct MemoryPoolConfig with its defaulted constructor values. -/
structure MemoryPoolConfig where
  small_block_size : Nat
  medium_block_size : Nat
  large_block_size : Nat
  block_count : Nat
  deriving Repr, DecidableEq

/-- The default configuration: 256 KiB / 1 MiB / 4 MiB, 10 blocks per
tier. -/
def defaultConfig : MemoryPoolConfig :=
  ⟨256 * 1024, 1024 * 1024, 4 * 1024 * 1024, 10⟩

/-- Manager state (class MemoryPoolManager). -/
structure MemoryPoolManager where
  config : MemoryPoolConfig
  small_blocks : List MemoryBlock
  medium_blocks : List MemoryBlock
  large_blocks : List MemoryBlock
  allocation_count : Nat
  deallocation_count : Nat
  total_allocated : Nat
  deriving Repr, DecidableEq

/-- MemoryPoolManager::MemoryPoolManager: `block_count` arenas per
tier, each tier at its configured size; `total_allocated_` accumulates
every arena's size. -/
def MemoryPoolManager.init (config : MemoryPoolConfig) : MemoryPoolManager :=
  { config := config
    small_blocks :=
      List.replicate config.block_count (MemoryBlock.init config.small_block_size)
    medium_blocks :=
      List.replicate config.block_count (MemoryBlock.init config.medium_block_size)
    large_blocks :=
      List.replicate config.block_count (MemoryBlock.init config.large_block_size)
    allocation_count := 0
    deallocation_count := 0
    total_allocated := config.block_count *
      (config.small_block_size + config.medium_block_size +
        config.large_block_size) }

/-- The arena list of one tier. -/
def pool_of (m : MemoryPoolManager) : Tier → List MemoryBlock
  | Tier.small => m.small_blocks
  | Tier.medium => m.medium_blocks
  | Tier.large => m.large_blocks

/-- The `pools_to_try` selection of
MemoryPoolManager::select_block_for_allocation: the ordered tiers whose
usable capacity (`tier size - sizeof(header) - MIN_BLOCK_SIZE`, compared
against the raw requested `size` as in the source) admits the request;
`none` models the immediate oversized-request rejection.  (With the
default tier sizes the `size_t` subtractions cannot underflow, so `Nat`
truncated subtraction coincides with the source.) -/
def tiers_to_try (m : MemoryPoolManager) (size : Nat) : Option (List Tier) :=
  if size ≤ m.config.small_block_size - headerSize - MIN_BLOCK_SIZE then
    some [Tier.small, Tier.medium, Tier.large]
  else if size ≤ m.config.medium_block_size - headerSize - MIN_BLOCK_SIZE then
    some [Tier.medium, Tier.large]
  else if size ≤ m.config.large_block_size - headerSize - MIN_BLOCK_SIZE then
    some [Tier.large]
  else none

/-- The inner loop of the pool scan: index of the first arena whose
lock-free cached max-free-size admits the aligned request. -/
def find_cached (blocks : List MemoryBlock) (aligned : Nat) : Option Nat :=
  match blocks with
  | [] => none
  | b :: rest =>
    if aligned ≤ b.cached_max_free_size then some 0
    else (find_cached rest aligned).map (· + 1)

/-- Scan the selected tiers in order, returning the first arena passing
the cached pre-check. -/
def pick_in_tiers (m : MemoryPoolManager) (aligned : Nat) :
    List Tier → Option (Tier × Nat)
  | [] => none
  | tr :: ts =>
    match find_cached (pool_of m tr) aligned with
    | some j => some (tr, j)
    | none => pick_in_tiers m aligned ts

/-- MemoryPoolManager::select_block_for_allocation. -/
def select_block_for_allocation (m : MemoryPoolManager) (size : Nat) :
    Option (Tier × Nat) :=
  match tiers_to_try m size with
  | none => none
  | some ts => pick_in_tiers m (align_up size ALIGNMENT) ts

/-- Replace one tier's arena list. -/
def set_pool (m : MemoryPoolManager) (tr : Tier) (blocks : List MemoryBlock) :
    MemoryPoolManager :=
  match tr with
  | Tier.small => { m with small_blocks := blocks }
  | Tier.medium => { m with medium_blocks := blocks }
  | Tier.large => { m with large_blocks := blocks }

/-- MemoryPoolManager::allocate.  The returned pointer is abstracted as
the owning tier, the arena index in that tier and the payload offset
inside the arena. -/
def MemoryPoolManager.allocate (m : MemoryPoolManager) (size : Nat) :
    Option (Tier × Nat × Nat) × MemoryPoolManager :=
  if size = 0 then (none, m)
  else
    match select_block_for_allocation m size with
    | none => (none, m)
    | some (tr, j) =>
      match (pool_of m tr)[j]? with
      | none => (none, m)
      | some b =>
        let res := b.allocate size
        let m2 := set_pool m tr ((pool_of m tr).set j res.2)
        match res.1 with
        | some off =>
          (some (tr, j, off),
           { m2 with allocation_count := m2.allocation_count + 1 })
        | none => (none, m2)

/-- Claim C7: `MemoryPoolManager::allocate(size)` selects tiers by
comparing `size` against each tier's usable capacity
(`tierBlockSize - sizeof(MemoryBlockHeader) - MIN_BLOCK_SIZE`): a
request fitting the small tier probes small, medium then large arenas
in that order, a request fitting only the medium tier probes medium
then large, a request fitting only the large tier probes large only,
and a larger request is rejected immediately with a null return and no
arena probed (no tier list is formed and the state is unchanged). -/
theorem tier_selection (m : MemoryPoolManager) (size : Nat) :
    (size ≤ m.config.small_block_size - headerSize - MIN_BLOCK_SIZE →
      tiers_to_try m size = some [Tier.small, Tier.medium, Tier.large]) ∧
    (m.config.small_block_size - headerSize - MIN_BLOCK_SIZE < size →
      size ≤ m.config.medium_block_size - headerSize - MIN_BLOCK_SIZE →
      tiers_to_try m size = some [Tier.medium, Tier.large]) ∧
    (m.config.medium_block_size - headerSize - MIN_BLOCK_SIZE < size →
      size ≤ m.config.large_block_size - headerSize - MIN_BLOCK_SIZE →
      m.config.small_block_size ≤ m.config.medium_block_size →
      tiers_to_try m size = some [Tier.large]) ∧
    (m.config.large_block_size - headerSize - MIN_BLOCK_SIZE < size →
      m.config.medium_block_size ≤ m.config.large_block_size →
      m.config.small_block_size ≤ m.config.medium_block_size →
      tiers_to_try m size = none ∧
      select_block_for_allocation m size = none ∧
      (m.allocate size).1 = none ∧ (m.allocate size).2 = m) := by
  refine ⟨?_, ?_, ?_, ?_⟩
  · intro h1
    rw [tiers_to_try, if_pos h1]
  · intro h1 h2
    rw [tiers_to_try, if_neg (by omega), if_pos h2]
  · intro h1 h2 hsm
    rw [tiers_to_try, if_neg (by omega), if_neg (by omega), if_pos h2]
  · intro h1 hml hsm
    have htiers : tiers_to_try m size = none := by
      rw [tiers_to_try, if_neg (by omega), if_neg (by omega),
        if_neg (by omega)]
    have hsel : select_block_for_allocation m size = none := by
      rw [select_block_for_allocation, htiers]
    have hsize : ¬ size = 0 := by omega
    refine ⟨htiers, hsel, ?_, ?_⟩ <;>
      rw [MemoryPoolManager.allocate, if_neg hsize] <;> simp [hsel]

/-- Witness for C7 at the default configuration: a 1000-byte request
probes small, medium then large; a 5 MiB request is rejected with the
manager unchanged. -/
theorem tier_selection_witness :
    tiers_to_try (MemoryPoolManager.init defaultConfig) 1000 =
      some [Tier.small, Tier.medium, Tier.large] ∧
    ((MemoryPoolManager.init defaultConfig).allocate (5 * 1024 * 1024)).1 =
      none :=
  ⟨(tier_selection (MemoryPoolManager.init defaultConfig) 1000).1 (by decide),
   ((tier_selection (MemoryPoolManager.init defaultConfig)
      (5 * 1024 * 1024)).2.2.2 (by decide) (by decide) (by decide)).2.2.1⟩

/-! ### Object pool (template class ObjectPool<T>) -/

/-- Pool state.  Heap objects are abstracted as distinct `Nat`
identities: `free_objects` is the free queue (front first),
`used_objects` the used set, `next_id` the supply of fresh identities
standing for `new T()`. -/
structure ObjectPool where
  free_objects : List Nat
  used_objects : List Nat
  initial_capacity : Nat
  max_capacity : Nat
  current_size : Nat
  peak_used : Nat
  next_id : Nat
  deriving Repr, DecidableEq

/-- ObjectPool::ObjectPool(initial_capacity, max_capacity): eagerly
constructs `initial_capacity` objects into the free queue and sets
`current_size_` to that count; the maximum is not consulted. -/
def ObjectPool.init (initial_capacity max_capacity : Nat) : ObjectPool :=
  { free_objects := List.range initial_capacity
    used_objects := []
    initial_capacity := initial_capacity
    max_capacity := max_capacity
    current_size := initial_capacity
    peak_used := 0
    next_id := initial_capacity }

/-- ObjectPool::acquire: pop from the free queue when non-empty;
otherwise construct a new object when `current_size_ < max_capacity_`;
otherwise null.  The acquired object is inserted into the used set and
the peak counter is bumped when the used count reaches a new maximum. -/
def ObjectPool.acquire (p : ObjectPool) : Option Nat × ObjectPool :=
  match p.free_objects with
  | obj :: rest =>
    (some obj,
     { p with free_objects := rest,
              used_objects := obj :: p.used_objects,
              peak_used := max p.peak_used (obj :: p.used_objects).length })
  | [] =>
    if p.current_size < p.max_capacity then
      (some p.next_id,
       { p with used_objects := p.next_id :: p.used_objects,
                current_size := p.current_size + 1,
                next_id := p.next_id + 1,
                peak_used := max p.peak_used
                  (p.next_id :: p.used_objects).length })
    else (none, p)

/-- ObjectPool::release: null or a pointer not in the used set fails;
otherwise the object moves from the used set to the back of the free
queue. -/
def ObjectPool.release (p : ObjectPool) (obj : Option Nat) :
    Bool × ObjectPool :=
  match obj with
  | none => (false, p)
  | some o =>
    if o ∈ p.used_objects then
      (true,
       { p with used_objects := p.used_objects.erase o,
                free_objects := p.free_objects ++ [o] })
    else (false, p)

/-- Repeated acquire: the list of results of `n` successive acquire
calls together with the final pool state. -/
def ObjectPool.acquireMany (p : ObjectPool) : Nat → List (Option Nat) × ObjectPool
  | 0 => ([], p)
  | n + 1 =>
    let r := p.acquire
    let rs := r.2.acquireMany n
    (r.1 :: rs.1, rs.2)

theorem acquireMany_of_le_free :
    ∀ (n : Nat) (p : ObjectPool), n ≤ p.free_objects.length →
      ((p.acquireMany n).1.all Option.isSome) = true ∧
      (p.acquireMany n).2.used_objects.length = p.used_objects.length + n ∧
      (p.acquireMany n).2.current_size = p.current_size := by
  intro n
  induction n with
  | zero =>
    intro p hp
    exact ⟨rfl, rfl, rfl⟩
  | succ k ih =>
    intro p hp
    cases hfo : p.free_objects with
    | nil =>
      rw [hfo] at hp
      simp at hp
    | cons obj rest =>
      have hacq : p.acquire =
          (some obj,
           { p with free_objects := rest,
                    used_objects := obj :: p.used_objects,
                    peak_used := max p.peak_used
                      (obj :: p.used_objects).length }) := by
        rw [ObjectPool.acquire, hfo]
      have hrest : k ≤ rest.length := by
        rw [hfo] at hp
        simpa using hp
      obtain ⟨ha, hu, hc⟩ := ih
        { p with free_objects := rest,
                 used_objects := obj :: p.used_objects,
                 peak_used := max p.peak_used (obj :: p.used_objects).length }
        hrest
      rw [show p.acquireMany (k + 1) =
        ((p.acquire).1 :: ((p.acquire).2.acquireMany k).1,
          ((p.acquire).2.acquireMany k).2) from rfl, hacq]
      refine ⟨?_, ?_, ?_⟩
      · simp only [List.all_cons, Option.isSome_some, Bool.true_and]
        exact ha
      · rw [hu]
        simp only [List.length_cons]
        omega
      · exact hc

/-- Claim C9: `ObjectPool<T>::acquire` returns a non-null object
whenever the free set is non-empty, otherwise constructs and returns a
new object when the created-object count is below `max_capacity`, and
returns null exactly when the free set is empty and the created count
has reached `max_capacity`.  In particular, for a pool with
`initial = 2, max = 3`, the first three acquires succeed, the fourth
returns null, and after releasing one object a further acquire succeeds
again. -/
theorem acquire_policy :
    (∀ p : ObjectPool, p.free_objects ≠ [] → ((p.acquire).1).isSome = true) ∧
    (∀ p : ObjectPool, p.free_objects = [] →
      p.current_size < p.max_capacity → ((p.acquire).1).isSome = true) ∧
    (∀ p : ObjectPool, (p.acquire).1 = none ↔
      p.free_objects = [] ∧ p.max_capacity ≤ p.current_size) ∧
    (((ObjectPool.init 2 3).acquireMany 4).1 =
      [some 0, some 1, some 2, none] ∧
      ((((ObjectPool.init 2 3).acquireMany 4).2.release (some 0)).2.acquire).1 =
        some 0) := by
  refine ⟨?_, ?_, ?_, by decide⟩
  · intro p hp
    cases hfo : p.free_objects with
    | nil => exact absurd hfo hp
    | cons obj rest =>
      rw [ObjectPool.acquire, hfo]
      rfl
  · intro p hp hcap
    rw [ObjectPool.acquire, hp]
    simp [if_pos hcap]
  · intro p
    cases hfo : p.free_objects with
    | cons obj rest =>
      rw [ObjectPool.acquire, hfo]
      simp [hfo]
    | nil =>
      rw [ObjectPool.acquire, hfo]
      by_cases hcap : p.current_size < p.max_capacity
      · simp [if_pos hcap, hfo]
        omega
      · simp [if_neg hcap, hfo]
        omega

/-- Witness for C9: the exhaustion scenario on the concrete (2,3) pool,
via the theorem's universally quantified clauses at that pool. -/
theorem acquire_policy_witness :
    (((ObjectPool.init 2 3).acquire).1).isSome = true ∧
    ((((ObjectPool.init 2 3).acquireMany 3).2.acquire).1 = none) :=
  ⟨acquire_policy.1 (ObjectPool.init 2 3) (by decide),
   (acquire_policy.2.2.1 ((ObjectPool.init 2 3).acquireMany 3).2).mpr
     (by decide)⟩

/-- Claim C10: constructing an ObjectPool with
`initial_capacity > max_capacity` still eagerly creates
`initial_capacity` objects (the maximum is not enforced at
construction), and because acquire serves from the free set before
checking `max_capacity`, all `initial_capacity` objects can be acquired
simultaneously: the number of outstanding objects exceeds
`max_capacity`. -/
theorem overcommit_init_above_max (ic mc : Nat) (h : mc < ic) :
    (ObjectPool.init ic mc).current_size = ic ∧
    (ObjectPool.init ic mc).free_objects.length = ic ∧
    (((ObjectPool.init ic mc).acquireMany ic).1.all Option.isSome) = true ∧
    ((ObjectPool.init ic mc).acquireMany ic).2.used_objects.length = ic ∧
    mc < ((ObjectPool.init ic mc).acquireMany ic).2.used_objects.length := by
  have hfree : (ObjectPool.init ic mc).free_objects.length = ic := by
    simp [ObjectPool.init]
  obtain ⟨ha, hu, -⟩ := acquireMany_of_le_free ic (ObjectPool.init ic mc)
    (by rw [hfree])
  refine ⟨rfl, hfree, ha, ?_, ?_⟩
  · rw [hu]
    simp [ObjectPool.init]
  · rw [hu]
    simp [ObjectPool.init]
    omega

/-- Witness for C10: with initial 5 and maximum 3, five acquires all
succeed and five objects are outstanding at once. -/
theorem overcommit_init_above_max_witness :
    (ObjectPool.init 5 3).current_size = 5 ∧
    (ObjectPool.init 5 3).free_objects.length = 5 ∧
    (((ObjectPool.init 5 3).acquireMany 5).1.all Option.isSome) = true ∧
    ((ObjectPool.init 5 3).acquireMany 5).2.used_objects.length = 5 ∧
    3 < ((ObjectPool.init 5 3).acquireMany 5).2.used_objects.length :=
  overcommit_init_above_max 5 3 (by decide)
